import Mathlib

/-!
Shallow embedding of `src/gold_signals_bot.py` (gold-signals Telegram bot).

Modelling conventions:
* Python floats are modelled as `ℚ`; `round(x, 2)` is modelled as exact
  round-half-to-even on `x * 100` (Python's documented rounding mode).
* `random.uniform(a, b)` draws are passed in as explicit parameters
  (`δ` for the price perturbation, `c` for the confidence draw), with the
  range `a ≤ draw ≤ b` as a hypothesis where a claim needs it.
* A JSON file on disk is a `FileState α`: `absent` (no file), `malformed`
  (present but `json.load` raises), or `stored v` (parses to `v`).
  `readFile` is the raw read (an exception becomes `Except.error`), and
  `load_json_file` is the source's try/except wrapper returning the default.
* A Python `set` of chat ids is modelled as its element list without
  duplicates: `set.add` appends iff absent (`setAdd`), the `set(...)`
  constructor folds `setAdd` over the list (`setOfList`).  CPython set
  iteration order is unspecified; every claim here is order-independent.
* The Telegram transport is a parameter `sendOk : ℤ → Bool` telling whether
  `bot.send_message` to a chat id succeeds or raises; the raised exception
  is caught inside the loop body, as in the source.
* `generated_at` (a wall-clock timestamp) and the rendered message text are
  not modelled; no claim mentions them.
-/

set_option maxRecDepth 16384

namespace GoldBot

/-- State of a JSON storage file: missing, present-but-unparsable, or parsed. -/
inductive FileState (α : Type) : Type where
  | absent : FileState α
  | malformed : FileState α
  | stored (v : α) : FileState α
deriving DecidableEq

/-- Raw file read: `stored v` parses to `v`; a missing file or a `json.load`
exception is an error. -/
def readFile {α : Type} : FileState α → Except Unit α
  | FileState.stored v => Except.ok v
  | _ => Except.error ()

/-- `load_json_file(path, default)` (source lines 19-26): try to read and
parse; on any exception (missing or malformed file) return `default`. -/
def load_json_file {α : Type} (fs : FileState α) (default : α) : α :=
  match readFile fs with
  | Except.ok v => v
  | Except.error _ => default

/-- Last `n` entries of a list: Python `lst[-n:]` (whole list when shorter). -/
def takeLast {α : Type} (n : ℕ) (l : List α) : List α :=
  l.drop (l.length - n)

/-- `load_prices()` (line 36): parsed price list, or `[]` on read failure. -/
def load_prices (fs : FileState (List ℚ)) : List ℚ :=
  load_json_file fs []

/-- `save_prices(lst)` (line 39): persist `lst[-500:]`. -/
def save_prices (lst : List ℚ) : FileState (List ℚ) :=
  FileState.stored (takeLast 500 lst)

/-- Python `set.add`: append the element iff it is not already a member. -/
def setAdd (l : List ℤ) (id : ℤ) : List ℤ :=
  if id ∈ l then l else l ++ [id]

/-- Python `set(list)`: insert the elements one by one, dropping duplicates. -/
def setOfList (l : List ℤ) : List ℤ :=
  l.foldl setAdd []

/-- `load_subscribers()` (line 42): `set(load_json_file(path, []))`. -/
def load_subscribers (fs : FileState (List ℤ)) : List ℤ :=
  setOfList (load_json_file fs [])

/-- `save_subscribers(s)` (line 45): persist `list(s)`. -/
def save_subscribers (s : List ℤ) : FileState (List ℤ) :=
  FileState.stored s

/-- Round-half-to-even to an integer (Python's `round` on the scaled value). -/
def roundHalfEven (q : ℚ) : ℤ :=
  let f := ⌊q⌋
  let r := q - f
  if r < 1/2 then f
  else if 1/2 < r then f + 1
  else if 2 ∣ f then f else f + 1

/-- Python `round(x, 2)`: round to two decimal places. -/
def round2 (q : ℚ) : ℚ :=
  (roundHalfEven (q * 100) : ℚ) / 100

/-- `sma(data, period)` (lines 48-51): mean of the last `period` entries,
`None` when there are fewer than `period` entries. -/
def sma (data : List ℚ) (period : ℕ) : Option ℚ :=
  if data.length < period then none
  else some ((takeLast period data).sum / (period : ℚ))

/-- `prices[-1] if prices else 2000.0` (line 55): the last element of the
history (the head of its reversal) or the 2000.0 baseline when empty. -/
def baseOf (prices : List ℚ) : ℚ :=
  match prices.reverse with
  | p :: _ => p
  | [] => 2000

/-- `get_price()` (lines 53-59) with the `random.uniform(-4, 4)` draw `δ`
made explicit: load the history, append `round(base + δ, 2)`, persist the
last 500 entries, and return the new price together with the new file state. -/
def get_price (fs : FileState (List ℚ)) (δ : ℚ) : ℚ × FileState (List ℚ) :=
  let prices := load_prices fs
  let new_price := round2 (baseOf prices + δ)
  (new_price, save_prices (prices ++ [new_price]))

/-- Signal side. -/
inductive Side : Type where
  | BUY : Side
  | SELL : Side
  | HOLD : Side
deriving DecidableEq

/-- Momentum fallback (lines 74-80): compare the last two prices of the
given history; `HOLD` when there are fewer than two. -/
def momentumSide (prices : List ℚ) : Side :=
  match prices.reverse with
  | p1 :: p2 :: _ =>
      if p1 > p2 then Side.BUY
      else if p1 < p2 then Side.SELL
      else Side.HOLD
  | _ => Side.HOLD

/-- Side decision of `generate_signal` (lines 64-80) over the history list
it holds in its local variable `prices`: the SMA crossover when both the
5- and 20-window SMAs are defined, otherwise the momentum fallback. -/
def decideSide (prices : List ℚ) : Side :=
  match sma prices 5, sma prices 20 with
  | some s5, some s20 =>
      if s5 > s20 then Side.BUY
      else if s5 < s20 then Side.SELL
      else Side.HOLD
  | _, _ => momentumSide prices

/-- Line 82 with the `random.uniform(0.6, 0.9)` draw `c` made explicit. -/
def confidenceOf (side : Side) (c : ℚ) : ℚ :=
  if side = Side.BUY ∨ side = Side.SELL then round2 c else 0.15

/-- Line 83: stop-loss. -/
def slOf (side : Side) (price : ℚ) : Option ℚ :=
  if side = Side.BUY ∨ side = Side.SELL then
    some (round2 (price * (if side = Side.BUY then 0.995 else 1.005)))
  else none

/-- Line 84: take-profit. -/
def tpOf (side : Side) (price : ℚ) : Option ℚ :=
  if side = Side.BUY ∨ side = Side.SELL then
    some (round2 (price * (if side = Side.BUY then 1.02 else 0.98)))
  else none

/-- The signal record returned by `generate_signal` (lines 86-93), minus the
unmodelled wall-clock `generated_at` field. -/
structure Signal : Type where
  side : Side
  price : ℚ
  confidence : ℚ
  sl : Option ℚ
  tp : Option ℚ
deriving DecidableEq

/-- `generate_signal()` (lines 61-93).  Note the source loads `prices` into
a local variable BEFORE calling `get_price()`, which re-loads the file,
appends the new price and saves; the side decision then runs on the stale
local list, which does not contain the new price. -/
def generate_signal (fs : FileState (List ℚ)) (δ c : ℚ) :
    Signal × FileState (List ℚ) :=
  let prices := load_prices fs
  let pr := get_price fs δ
  let side := decideSide prices
  ({ side := side
     price := pr.1
     confidence := confidenceOf side c
     sl := slOf side pr.1
     tp := tpOf side pr.1 }, pr.2)

/-- The distinct user-visible replies of the subscribe/unsubscribe handlers
(the rendered Arabic text is out of scope; only which message is sent
matters). -/
inductive Reply : Type where
  | subscribeAck : Reply
  | unsubscribeAck : Reply
  | notSubscribed : Reply
deriving DecidableEq

/-- `subscribe_cmd` (lines 131-136): load the set, add the chat id, save,
and reply with the (single, unconditional) subscription acknowledgment. -/
def subscribe_cmd (fs : FileState (List ℤ)) (chat_id : ℤ) :
    FileState (List ℤ) × Reply :=
  let subs := load_subscribers fs
  let subs2 := setAdd subs chat_id
  (save_subscribers subs2, Reply.subscribeAck)

/-- Outcome of one `bot.send_message` attempt inside the broadcast loop:
either the send succeeded, or it raised and the exception was caught by the
per-iteration try/except (lines 162-165). -/
inductive DeliveryResult : Type where
  | sent (id : ℤ) : DeliveryResult
  | failedCaught (id : ℤ) : DeliveryResult
deriving DecidableEq

/-- The `for chat_id in list(subs)` loop (lines 161-166): one attempt per
subscriber, in order; a failure is caught and the loop continues. -/
def sendLoop (sendOk : ℤ → Bool) : List ℤ → List DeliveryResult
  | [] => []
  | id :: rest =>
      (if sendOk id then DeliveryResult.sent id
       else DeliveryResult.failedCaught id) :: sendLoop sendOk rest

/-- Chat ids to which a delivery was attempted. -/
def attemptedIds (results : List DeliveryResult) : List ℤ :=
  results.map fun r =>
    match r with
    | DeliveryResult.sent id => id
    | DeliveryResult.failedCaught id => id

/-- Observable outcome of one broadcast tick. -/
inductive TickOutcome : Type where
  | skippedHold : TickOutcome
  | noSubscribers : TickOutcome
  | delivered (results : List DeliveryResult) : TickOutcome
deriving DecidableEq

/-- Number of delivery attempts a tick made. -/
def TickOutcome.attemptCount : TickOutcome → ℕ
  | TickOutcome.delivered results => results.length
  | _ => 0

/-- `broadcast_job` (lines 149-166): generate one signal; if its side is not
BUY or SELL, skip; otherwise load the subscribers and, unless the set is
empty, attempt one delivery per subscriber.  The subscriber file is only
read, never written (the source keeps blocked chats).  The tick also
returns the price-file state written by `generate_signal`. -/
def broadcast_job (pfs : FileState (List ℚ)) (sfs : FileState (List ℤ))
    (δ c : ℚ) (sendOk : ℤ → Bool) : TickOutcome × FileState (List ℚ) :=
  let r := generate_signal pfs δ c
  if ¬ (r.1.side = Side.BUY ∨ r.1.side = Side.SELL) then
    (TickOutcome.skippedHold, r.2)
  else
    let subs := load_subscribers sfs
    if subs = [] then (TickOutcome.noSubscribers, r.2)
    else (TickOutcome.delivered (sendLoop sendOk subs), r.2)

/-- Iterate `generate_signal`, one `(δ, c)` draw pair per call, threading
the price-file state. -/
def runSignals (fs : FileState (List ℚ)) : List (ℚ × ℚ) → FileState (List ℚ)
  | [] => fs
  | d :: ds => runSignals (generate_signal fs d.1 d.2).2 ds

/-- The synthetic prices appended by a run of `generate_signal` calls, in
chronological order. -/
def genPrices (fs : FileState (List ℚ)) : List (ℚ × ℚ) → List ℚ
  | [] => []
  | d :: ds =>
      (generate_signal fs d.1 d.2).1.price ::
        genPrices (generate_signal fs d.1 d.2).2 ds

/-- Modelled from the WORDS of claim C1 and spec section 4.1, not from the
source: the side prescribed by the 5- and 20-window SMAs computed over the
history INCLUDING the newly appended synthetic price, when both are
defined (`none` otherwise).  Compared against `generate_signal` below. -/
def claimSideWithNew (fs : FileState (List ℚ)) (δ : ℚ) : Option Side :=
  let prices := load_prices fs
  let withNew := prices ++ [round2 (baseOf prices + δ)]
  match sma withNew 5, sma withNew 20 with
  | some s5, some s20 =>
      some (if s5 > s20 then Side.BUY
            else if s5 < s20 then Side.SELL
            else Side.HOLD)
  | _, _ => none

/-! ## Rounding lemmas -/

/-- Rounding never overshoots an integer upper bound. -/
theorem roundHalfEven_le {q : ℚ} {n : ℤ} (h : q ≤ (n : ℚ)) :
    roundHalfEven q ≤ n := by
  have hf : ⌊q⌋ ≤ n := by simpa using Int.floor_le_floor h
  have hsucc : ¬ (q - (⌊q⌋ : ℚ) < 1/2) → ⌊q⌋ + 1 ≤ n := by
    intro h1
    have h2 : (⌊q⌋ : ℚ) < q := by
      have := le_of_not_lt h1
      linarith
    have h3 : (⌊q⌋ : ℚ) < (n : ℚ) := lt_of_lt_of_le h2 h
    have h4 : ⌊q⌋ < n := by exact_mod_cast h3
    omega
  simp only [roundHalfEven]
  split
  next => exact hf
  next h1 =>
    split
    next => exact hsucc h1
    next =>
      split
      next => exact hf
      next => exact hsucc h1

/-- Rounding never undershoots an integer lower bound. -/
theorem le_roundHalfEven {q : ℚ} {n : ℤ} (h : (n : ℚ) ≤ q) :
    n ≤ roundHalfEven q := by
  have hf : n ≤ ⌊q⌋ := Int.le_floor.mpr h
  simp only [roundHalfEven]
  split
  next => exact hf
  next =>
    split
    next => omega
    next =>
      split
      next => exact hf
      next => omega

/-- Rounding moves a rational by at most one half. -/
theorem abs_roundHalfEven_sub (q : ℚ) :
    |(roundHalfEven q : ℚ) - q| ≤ 1/2 := by
  have h0 : (⌊q⌋ : ℚ) ≤ q := Int.floor_le q
  have h1 : q < (⌊q⌋ : ℚ) + 1 := Int.lt_floor_add_one q
  simp only [roundHalfEven]
  split
  next hlt => rw [abs_le]; constructor <;> linarith
  next hge =>
    have hge' : (1 : ℚ)/2 ≤ q - ⌊q⌋ := le_of_not_lt hge
    split
    next => rw [abs_le]; constructor <;> push_cast <;> linarith
    next hle =>
      have hle' : q - (⌊q⌋ : ℚ) ≤ 1/2 := le_of_not_lt hle
      split
      next => rw [abs_le]; constructor <;> linarith
      next => rw [abs_le]; constructor <;> push_cast <;> linarith

/-- Two-decimal rounding respects lower bounds that are multiples of 1/100. -/
theorem le_round2 {m : ℤ} {q : ℚ} (h : (m : ℚ)/100 ≤ q) :
    (m : ℚ)/100 ≤ round2 q := by
  have h1 : (m : ℚ) ≤ q * 100 := by linarith
  have h2 : m ≤ roundHalfEven (q * 100) := le_roundHalfEven h1
  have h3 : (m : ℚ) ≤ (roundHalfEven (q * 100) : ℚ) := by exact_mod_cast h2
  unfold round2
  linarith

/-- Two-decimal rounding respects upper bounds that are multiples of 1/100. -/
theorem round2_le {m : ℤ} {q : ℚ} (h : q ≤ (m : ℚ)/100) :
    round2 q ≤ (m : ℚ)/100 := by
  have h1 : q * 100 ≤ (m : ℚ) := by linarith
  have h2 : roundHalfEven (q * 100) ≤ m := roundHalfEven_le h1
  have h3 : (roundHalfEven (q * 100) : ℚ) ≤ (m : ℚ) := by exact_mod_cast h2
  unfold round2
  linarith

/-- Two-decimal rounding moves a rational by at most 0.005. -/
theorem abs_round2_sub (q : ℚ) : |round2 q - q| ≤ 1/200 := by
  have h := abs_roundHalfEven_sub (q * 100)
  rw [abs_le] at h ⊢
  unfold round2
  constructor <;> linarith [h.1, h.2]

/-! ## Projections of generate_signal -/

theorem generate_signal_side (fs : FileState (List ℚ)) (δ c : ℚ) :
    (generate_signal fs δ c).1.side = decideSide (load_prices fs) := rfl

theorem generate_signal_price (fs : FileState (List ℚ)) (δ c : ℚ) :
    (generate_signal fs δ c).1.price = (get_price fs δ).1 := rfl

theorem generate_signal_confidence (fs : FileState (List ℚ)) (δ c : ℚ) :
    (generate_signal fs δ c).1.confidence =
      confidenceOf (decideSide (load_prices fs)) c := rfl

theorem generate_signal_sl (fs : FileState (List ℚ)) (δ c : ℚ) :
    (generate_signal fs δ c).1.sl =
      slOf (decideSide (load_prices fs)) (get_price fs δ).1 := rfl

theorem generate_signal_tp (fs : FileState (List ℚ)) (δ c : ℚ) :
    (generate_signal fs δ c).1.tp =
      tpOf (decideSide (load_prices fs)) (get_price fs δ).1 := rfl

/-- By-side form of the stop-loss rule. -/
theorem slOf_cases (side : Side) (p : ℚ) :
    slOf side p = (if side = Side.BUY then some (round2 (p * 0.995))
                   else if side = Side.SELL then some (round2 (p * 1.005))
                   else none) := by
  cases side <;> rfl

/-- By-side form of the take-profit rule. -/
theorem tpOf_cases (side : Side) (p : ℚ) :
    tpOf side p = (if side = Side.BUY then some (round2 (p * 1.02))
                   else if side = Side.SELL then some (round2 (p * 0.98))
                   else none) := by
  cases side <;> rfl

/-- Bounds on the rounded confidence draw. -/
theorem round2_conf_bounds {c : ℚ} (h1 : (0.6 : ℚ) ≤ c) (h2 : c ≤ (0.9 : ℚ)) :
    (0.6 : ℚ) ≤ round2 c ∧ round2 c ≤ (0.9 : ℚ) := by
  have e6 : ((60 : ℤ) : ℚ)/100 = (0.6 : ℚ) := by norm_num
  have e9 : ((90 : ℤ) : ℚ)/100 = (0.9 : ℚ) := by norm_num
  constructor
  · rw [← e6]
    exact le_round2 (by rw [e6]; exact h1)
  · rw [← e9]
    exact round2_le (by rw [e9]; exact h2)

/-! ## Claim theorems -/

/-- C1 (amended): the 5-window and 20-window simple moving averages that
drive the BUY/SELL/HOLD decision are computed over the persisted price
history as loaded BEFORE the newly appended synthetic price (excluding
it); when both averages are defined, side is BUY if the short average
exceeds the long, SELL if it is below it, and HOLD if they are equal. -/
theorem C1_sma_decision (fs : FileState (List ℚ)) (δ c : ℚ) (s5 s20 : ℚ)
    (h5 : sma (load_prices fs) 5 = some s5)
    (h20 : sma (load_prices fs) 20 = some s20) :
    (generate_signal fs δ c).1.side =
      (if s5 > s20 then Side.BUY
       else if s5 < s20 then Side.SELL
       else Side.HOLD) := by
  rw [generate_signal_side]
  unfold decideSide
  rw [h5, h20]

/-- Witness for C1_sma_decision: a 20-entry history with short average 2100
and long average 2025 yields BUY. -/
theorem C1_sma_decision_w :
    (generate_signal
      (FileState.stored (List.replicate 15 (2000 : ℚ) ++ List.replicate 5 2100))
      0 (3/4)).1.side =
      (if (2100 : ℚ) > 2025 then Side.BUY
       else if (2100 : ℚ) < 2025 then Side.SELL
       else Side.HOLD) :=
  C1_sma_decision _ _ _ _ _
    (by norm_num [load_prices, load_json_file, readFile, sma, takeLast,
      List.replicate])
    (by norm_num [load_prices, load_json_file, readFile, sma, takeLast,
      List.replicate])

/-- C1 counterexample: with a persisted history of twenty entries 2000 and
perturbation +4, the claim's rule (SMAs over the history INCLUDING the new
price 2004) prescribes BUY, but `generate_signal` returns HOLD: its SMAs
see only the stale pre-append history, where both averages are 2000. -/
theorem C1_cx :
    claimSideWithNew (FileState.stored (List.replicate 20 (2000 : ℚ))) 4 =
      some Side.BUY ∧
    (generate_signal (FileState.stored (List.replicate 20 (2000 : ℚ))) 4
      (3/4)).1.side = Side.HOLD := by
  constructor
  · norm_num [claimSideWithNew, load_prices, load_json_file, readFile, baseOf,
      round2, roundHalfEven, sma, takeLast, List.replicate]
  · norm_num [generate_signal, load_prices, load_json_file, readFile,
      decideSide, sma, momentumSide, takeLast, List.replicate]

/-- C2 (amended): starting from persisted history [2000.00], a
`generate_signal` call with perturbation +2 produces price 2002.00 and
persisted history [2000.00, 2002.00] of length 2, but the side is HOLD for
every confidence draw: the momentum fallback reads the stale pre-append
history of length 1, so confidence is the fixed 0.15 and stopLoss and
takeProfit are absent. -/
theorem C2_scenario (c : ℚ) :
    (generate_signal (FileState.stored [(2000 : ℚ)]) 2 c).1.price = 2002 ∧
    load_prices (generate_signal (FileState.stored [(2000 : ℚ)]) 2 c).2 =
      [2000, 2002] ∧
    (load_prices (generate_signal (FileState.stored [(2000 : ℚ)]) 2 c).2).length
      = 2 ∧
    (generate_signal (FileState.stored [(2000 : ℚ)]) 2 c).1.side = Side.HOLD ∧
    (generate_signal (FileState.stored [(2000 : ℚ)]) 2 c).1.confidence =
      (0.15 : ℚ) ∧
    (generate_signal (FileState.stored [(2000 : ℚ)]) 2 c).1.sl = none ∧
    (generate_signal (FileState.stored [(2000 : ℚ)]) 2 c).1.tp = none := by
  have hside : decideSide (load_prices (FileState.stored [(2000 : ℚ)])) =
      Side.HOLD := by
    norm_num [load_prices, load_json_file, readFile, decideSide, sma,
      momentumSide, takeLast]
  have hneg : ¬ (decideSide (load_prices (FileState.stored [(2000 : ℚ)])) =
      Side.BUY ∨
      decideSide (load_prices (FileState.stored [(2000 : ℚ)])) = Side.SELL) := by
    rw [hside]
    rintro (h | h) <;> cases h
  refine ⟨?_, ?_, ?_, ?_, ?_, ?_, ?_⟩
  · rw [generate_signal_price]
    norm_num [get_price, load_prices, load_json_file, readFile, baseOf,
      round2, roundHalfEven, save_prices, takeLast]
  · norm_num [generate_signal, get_price, load_prices, load_json_file, readFile,
      baseOf, round2, roundHalfEven, save_prices, takeLast]
  · norm_num [generate_signal, get_price, load_prices, load_json_file, readFile,
      baseOf, round2, roundHalfEven, save_prices, takeLast]
  · rw [generate_signal_side, hside]
  · rw [generate_signal_confidence]
    simp only [confidenceOf]
    rw [if_neg hneg]
  · rw [generate_signal_sl]
    simp only [slOf]
    rw [if_neg hneg]
  · rw [generate_signal_tp]
    simp only [tpOf]
    rw [if_neg hneg]

/-- C2 counterexample: at history [2000.00] and perturbation +2 the code
returns HOLD with no stop-loss, not the BUY with stopLoss 1991.99 that the
claim asserts. -/
theorem C2_cx :
    (generate_signal (FileState.stored [(2000 : ℚ)]) 2 (3/4)).1.side =
      Side.HOLD ∧
    (generate_signal (FileState.stored [(2000 : ℚ)]) 2 (3/4)).1.side ≠
      Side.BUY ∧
    (generate_signal (FileState.stored [(2000 : ℚ)]) 2 (3/4)).1.sl = none := by
  have hside : decideSide (load_prices (FileState.stored [(2000 : ℚ)])) =
      Side.HOLD := by
    norm_num [load_prices, load_json_file, readFile, decideSide, sma,
      momentumSide, takeLast]
  have hneg : ¬ (decideSide (load_prices (FileState.stored [(2000 : ℚ)])) =
      Side.BUY ∨
      decideSide (load_prices (FileState.stored [(2000 : ℚ)])) = Side.SELL) := by
    rw [hside]
    rintro (h | h) <;> cases h
  refine ⟨?_, ?_, ?_⟩
  · rw [generate_signal_side, hside]
  · rw [generate_signal_side, hside]
    rintro h
    cases h
  · rw [generate_signal_sl]
    simp only [slOf]
    rw [if_neg hneg]

/-- C7: every signal has stopLoss and takeProfit present exactly when the
side is BUY or SELL, with the deterministic two-decimal offsets
(price×0.995 and price×1.02 for BUY, price×1.005 and price×0.98 for SELL),
and both absent for HOLD. -/
theorem C7_sl_tp_offsets (fs : FileState (List ℚ)) (δ c : ℚ) :
    (generate_signal fs δ c).1.sl =
      (if (generate_signal fs δ c).1.side = Side.BUY then
        some (round2 ((generate_signal fs δ c).1.price * 0.995))
       else if (generate_signal fs δ c).1.side = Side.SELL then
        some (round2 ((generate_signal fs δ c).1.price * 1.005))
       else none) ∧
    (generate_signal fs δ c).1.tp =
      (if (generate_signal fs δ c).1.side = Side.BUY then
        some (round2 ((generate_signal fs δ c).1.price * 1.02))
       else if (generate_signal fs δ c).1.side = Side.SELL then
        some (round2 ((generate_signal fs δ c).1.price * 0.98))
       else none) := by
  rw [generate_signal_sl, generate_signal_tp, generate_signal_side,
    generate_signal_price]
  exact ⟨slOf_cases _ _, tpOf_cases _ _⟩

/-- C8: the confidence of every signal lies in [0.6, 0.9] when the side is
BUY or SELL (for every history and every confidence draw in the uniform
range) and is the fixed 0.15 when the side is HOLD. -/
theorem C8_confidence (fs : FileState (List ℚ)) (δ c : ℚ)
    (h1 : (0.6 : ℚ) ≤ c) (h2 : c ≤ (0.9 : ℚ)) :
    (((generate_signal fs δ c).1.side = Side.BUY ∨
      (generate_signal fs δ c).1.side = Side.SELL) →
      (0.6 : ℚ) ≤ (generate_signal fs δ c).1.confidence ∧
      (generate_signal fs δ c).1.confidence ≤ (0.9 : ℚ)) ∧
    ((generate_signal fs δ c).1.side = Side.HOLD →
      (generate_signal fs δ c).1.confidence = (0.15 : ℚ)) := by
  rw [generate_signal_confidence, generate_signal_side]
  constructor
  · intro hside
    simp only [confidenceOf]
    rw [if_pos hside]
    exact round2_conf_bounds h1 h2
  · intro hside
    have hneg : ¬ (decideSide (load_prices fs) = Side.BUY ∨
        decideSide (load_prices fs) = Side.SELL) := by
      rw [hside]
      rintro (h | h) <;> cases h
    simp only [confidenceOf]
    rw [if_neg hneg]

/-- Witness for C8_confidence: history [2000, 2001] gives BUY by momentum,
and the draw 0.75 is in range. -/
theorem C8_confidence_w :
    (((generate_signal (FileState.stored [(2000 : ℚ), 2001]) 0 (3/4)).1.side =
        Side.BUY ∨
      (generate_signal (FileState.stored [(2000 : ℚ), 2001]) 0 (3/4)).1.side =
        Side.SELL) →
      (0.6 : ℚ) ≤
        (generate_signal (FileState.stored [(2000 : ℚ), 2001]) 0
          (3/4)).1.confidence ∧
      (generate_signal (FileState.stored [(2000 : ℚ), 2001]) 0
          (3/4)).1.confidence ≤ (0.9 : ℚ)) ∧
    ((generate_signal (FileState.stored [(2000 : ℚ), 2001]) 0 (3/4)).1.side =
        Side.HOLD →
      (generate_signal (FileState.stored [(2000 : ℚ), 2001]) 0
          (3/4)).1.confidence = (0.15 : ℚ)) :=
  C8_confidence _ _ _ (by norm_num) (by norm_num)

/-! ## Subscriber-set lemmas -/

/-- Membership after a set insertion. -/
theorem mem_setAdd {l : List ℤ} {a x : ℤ} :
    x ∈ setAdd l a ↔ x ∈ l ∨ x = a := by
  unfold setAdd
  split
  next h =>
    constructor
    · exact Or.inl
    · rintro (hx | rfl)
      · exact hx
      · exact h
  next => simp

/-- Inserting a member leaves the set unchanged. -/
theorem setAdd_of_mem {l : List ℤ} {a : ℤ} (h : a ∈ l) : setAdd l a = l := by
  unfold setAdd
  rw [if_pos h]

/-- The inserted element is a member. -/
theorem mem_setAdd_self (l : List ℤ) (a : ℤ) : a ∈ setAdd l a :=
  mem_setAdd.mpr (Or.inr rfl)

/-- Insertion preserves duplicate-freeness. -/
theorem setAdd_nodup {l : List ℤ} (h : l.Nodup) (a : ℤ) :
    (setAdd l a).Nodup := by
  unfold setAdd
  split
  next => exact h
  next hna =>
    have hdisjS : List.Disjoint l [a] := by
      intro x hx hxa
      rw [List.mem_singleton] at hxa
      exact hna (hxa ▸ hx)
    rw [List.nodup_append]
    exact ⟨h, List.nodup_singleton a, hdisjS⟩

/-- Folding insertions preserves duplicate-freeness. -/
theorem foldl_setAdd_nodup (l : List ℤ) :
    ∀ acc : List ℤ, acc.Nodup → (l.foldl setAdd acc).Nodup := by
  induction l with
  | nil => intro acc h; simpa using h
  | cons a t ih => intro acc h; exact ih _ (setAdd_nodup h a)

/-- The set constructor yields a duplicate-free list. -/
theorem setOfList_nodup (l : List ℤ) : (setOfList l).Nodup :=
  foldl_setAdd_nodup l [] (by simp)

/-- Loaded subscriber sets are duplicate-free. -/
theorem load_subscribers_nodup (fs : FileState (List ℤ)) :
    (load_subscribers fs).Nodup :=
  setOfList_nodup _

/-- Folding insertions of fresh, distinct elements just appends them. -/
theorem foldl_setAdd_of_nodup (l : List ℤ) :
    ∀ acc : List ℤ, acc.Nodup → (∀ x ∈ l, x ∉ acc) → l.Nodup →
      l.foldl setAdd acc = acc ++ l := by
  induction l with
  | nil => intro acc _ _ _; simp
  | cons a t ih =>
      intro acc hacc hdisj hl
      have ha : a ∉ acc := hdisj a (by simp)
      have hAddEq : setAdd acc a = acc ++ [a] := by
        unfold setAdd
        rw [if_neg ha]
      have hdisjS : List.Disjoint acc [a] := by
        intro x hx hxa
        rw [List.mem_singleton] at hxa
        exact ha (hxa ▸ hx)
      have hacc2 : (acc ++ [a]).Nodup := by
        rw [List.nodup_append]
        exact ⟨hacc, List.nodup_singleton a, hdisjS⟩
      have hdisj2 : ∀ x ∈ t, x ∉ acc ++ [a] := by
        intro x hx
        simp only [List.mem_append, List.mem_singleton]
        rintro (hmem | rfl)
        · exact hdisj x (List.mem_cons_of_mem a hx) hmem
        · exact (List.nodup_cons.mp hl).1 hx
      rw [List.foldl_cons, hAddEq,
        ih (acc ++ [a]) hacc2 hdisj2 (List.nodup_cons.mp hl).2]
      simp

/-- The set constructor is the identity on duplicate-free lists. -/
theorem setOfList_eq_self {l : List ℤ} (h : l.Nodup) : setOfList l = l := by
  have := foldl_setAdd_of_nodup l [] (by simp) (by simp) h
  simpa [setOfList] using this

/-- C3 (amended): subscribe persists `setAdd` of the loaded set
synchronously, a second subscribe of the same id leaves the persisted file
unchanged, and both calls return the same (single, unconditional)
subscription acknowledgment — the handler never reports already-present. -/
theorem C3_subscribe_idempotent (fs : FileState (List ℤ)) (id : ℤ) :
    (subscribe_cmd fs id).1 =
      FileState.stored (setAdd (load_subscribers fs) id) ∧
    (subscribe_cmd (subscribe_cmd fs id).1 id).1 = (subscribe_cmd fs id).1 ∧
    (subscribe_cmd (subscribe_cmd fs id).1 id).2 = (subscribe_cmd fs id).2 ∧
    (subscribe_cmd fs id).2 = Reply.subscribeAck := by
  refine ⟨rfl, ?_, rfl, rfl⟩
  have e1 : (subscribe_cmd (subscribe_cmd fs id).1 id).1 =
      FileState.stored
        (setAdd (load_subscribers
          (FileState.stored (setAdd (load_subscribers fs) id))) id) := rfl
  have e2 : load_subscribers
      (FileState.stored (setAdd (load_subscribers fs) id)) =
      setAdd (load_subscribers fs) id :=
    setOfList_eq_self (setAdd_nodup (load_subscribers_nodup fs) id)
  rw [e1, e2, setAdd_of_mem (mem_setAdd_self _ _)]
  rfl

/-- C3 counterexample: subscribing id 7 twice from the empty store yields
the identical `subscribeAck` reply both times — the second call does not
report already-present as the claim asserts. -/
theorem C3_cx :
    (subscribe_cmd (subscribe_cmd (FileState.stored ([] : List ℤ)) 7).1 7).2 =
      Reply.subscribeAck ∧
    (subscribe_cmd (subscribe_cmd (FileState.stored ([] : List ℤ)) 7).1 7).2 =
      (subscribe_cmd (FileState.stored ([] : List ℤ)) 7).2 :=
  ⟨rfl, rfl⟩

/-! ## Broadcast lemmas -/

/-- The delivery loop attempts every subscriber exactly once, in order. -/
theorem attemptedIds_sendLoop (sendOk : ℤ → Bool) (l : List ℤ) :
    attemptedIds (sendLoop sendOk l) = l := by
  induction l with
  | nil => rfl
  | cons a t ih =>
      unfold sendLoop
      by_cases h : sendOk a <;>
        simp only [h, if_true, if_false, attemptedIds, List.map_cons] <;>
        simpa [attemptedIds] using ih

/-- A failing subscriber's exception is caught and recorded, and the loop
goes on. -/
theorem failedCaught_mem_sendLoop (sendOk : ℤ → Bool) {l : List ℤ} {k : ℤ}
    (hk : k ∈ l) (hf : sendOk k = false) :
    DeliveryResult.failedCaught k ∈ sendLoop sendOk l := by
  induction l with
  | nil => cases hk
  | cons a t ih =>
      rcases List.mem_cons.mp hk with rfl | hmem
      · unfold sendLoop
        rw [hf]
        simp
      · unfold sendLoop
        exact List.mem_cons_of_mem _ (ih hmem)

/-- C4: on a BUY/SELL tick, a caught failure for subscriber k does not stop
the loop: delivery is attempted to every loaded subscriber (hence to all
the others), k's failure is recorded as caught, the subscriber file is
never written by the tick, and the tick returns its outcome normally. -/
theorem C4_failure_isolated (pfs : FileState (List ℚ))
    (sfs : FileState (List ℤ)) (δ c : ℚ) (sendOk : ℤ → Bool) (k : ℤ)
    (hside : (generate_signal pfs δ c).1.side = Side.BUY ∨
      (generate_signal pfs δ c).1.side = Side.SELL)
    (hk : k ∈ load_subscribers sfs) (hfail : sendOk k = false) :
    broadcast_job pfs sfs δ c sendOk =
      (TickOutcome.delivered (sendLoop sendOk (load_subscribers sfs)),
        (generate_signal pfs δ c).2) ∧
    attemptedIds (sendLoop sendOk (load_subscribers sfs)) =
      load_subscribers sfs ∧
    DeliveryResult.failedCaught k ∈
      sendLoop sendOk (load_subscribers sfs) := by
  refine ⟨?_, attemptedIds_sendLoop _ _, failedCaught_mem_sendLoop _ hk hfail⟩
  unfold broadcast_job
  rw [if_neg (not_not.mpr hside), if_neg (List.ne_nil_of_mem hk)]

/-- Witness for C4_failure_isolated: three subscribers, delivery to id 7
fails, history [2000, 2001] gives BUY by momentum. -/
theorem C4_failure_isolated_w :
    broadcast_job (FileState.stored [(2000 : ℚ), 2001])
        (FileState.stored [(5 : ℤ), 7, 9]) 0 (3/4) (fun id => id != 7) =
      (TickOutcome.delivered (sendLoop (fun id => id != 7)
          (load_subscribers (FileState.stored [(5 : ℤ), 7, 9]))),
        (generate_signal (FileState.stored [(2000 : ℚ), 2001]) 0 (3/4)).2) ∧
    attemptedIds (sendLoop (fun id => id != 7)
        (load_subscribers (FileState.stored [(5 : ℤ), 7, 9]))) =
      load_subscribers (FileState.stored [(5 : ℤ), 7, 9]) ∧
    DeliveryResult.failedCaught 7 ∈
      sendLoop (fun id => id != 7)
        (load_subscribers (FileState.stored [(5 : ℤ), 7, 9])) :=
  C4_failure_isolated _ _ _ _ _ _
    (Or.inl (by norm_num [generate_signal, load_prices, load_json_file,
      readFile, decideSide, sma, momentumSide, takeLast]))
    (by decide) (by decide)

/-- C5: a tick whose generated signal is HOLD makes zero delivery attempts
and returns normally with the skipped outcome. -/
theorem C5_hold_suppresses (pfs : FileState (List ℚ))
    (sfs : FileState (List ℤ)) (δ c : ℚ) (sendOk : ℤ → Bool)
    (hside : (generate_signal pfs δ c).1.side = Side.HOLD) :
    broadcast_job pfs sfs δ c sendOk =
      (TickOutcome.skippedHold, (generate_signal pfs δ c).2) ∧
    TickOutcome.attemptCount (broadcast_job pfs sfs δ c sendOk).1 = 0 := by
  have hneg : ¬ ((generate_signal pfs δ c).1.side = Side.BUY ∨
      (generate_signal pfs δ c).1.side = Side.SELL) := by
    rw [hside]
    rintro (h | h) <;> cases h
  have e : broadcast_job pfs sfs δ c sendOk =
      (TickOutcome.skippedHold, (generate_signal pfs δ c).2) := by
    unfold broadcast_job
    rw [if_pos hneg]
  refine ⟨e, ?_⟩
  rw [e]
  rfl

/-- Witness for C5_hold_suppresses: an empty price history yields HOLD. -/
theorem C5_hold_suppresses_w :
    broadcast_job (FileState.stored ([] : List ℚ))
        (FileState.stored [(5 : ℤ)]) 1 (3/4) (fun _ => true) =
      (TickOutcome.skippedHold,
        (generate_signal (FileState.stored ([] : List ℚ)) 1 (3/4)).2) ∧
    TickOutcome.attemptCount
      (broadcast_job (FileState.stored ([] : List ℚ))
        (FileState.stored [(5 : ℤ)]) 1 (3/4) (fun _ => true)).1 = 0 :=
  C5_hold_suppresses _ _ _ _ _ rfl

/-! ## History-bound lemmas -/

/-- The last-500 truncation never exceeds 500 entries. -/
theorem takeLast_length_le {α : Type} (n : ℕ) (l : List α) :
    (takeLast n l).length ≤ n := by
  simp only [takeLast, List.length_drop]
  omega

/-- The last-500 truncation keeps a chronological suffix. -/
theorem takeLast_isSuffix {α : Type} (n : ℕ) (l : List α) :
    List.IsSuffix (takeLast n l) l :=
  List.drop_suffix _ _

/-- Appending on the right preserves the suffix relation. -/
theorem isSuffix_append_same {α : Type} {s t : List α} (u : List α)
    (h : List.IsSuffix s t) : List.IsSuffix (s ++ u) (t ++ u) := by
  obtain ⟨w, rfl⟩ := h
  exact ⟨w, (List.append_assoc w s u).symm⟩

/-- One `generate_signal` call persists the truncated appended history. -/
theorem load_prices_gen_step (fs : FileState (List ℚ)) (δ c : ℚ) :
    load_prices (generate_signal fs δ c).2 =
      takeLast 500 (load_prices fs ++ [(generate_signal fs δ c).1.price]) :=
  rfl

/-- Runs keep a ≤ 500 history once the history is within bound. -/
theorem runSignals_length_of_le (ds : List (ℚ × ℚ)) :
    ∀ fs : FileState (List ℚ), (load_prices fs).length ≤ 500 →
      (load_prices (runSignals fs ds)).length ≤ 500 := by
  induction ds with
  | nil => intro fs h; simpa [runSignals] using h
  | cons d t ih =>
      intro fs _
      simp only [runSignals]
      apply ih
      rw [load_prices_gen_step]
      exact takeLast_length_le _ _

/-- After at least one call the persisted history has at most 500 entries. -/
theorem runSignals_length (ds : List (ℚ × ℚ)) (fs : FileState (List ℚ))
    (h : ds ≠ []) : (load_prices (runSignals fs ds)).length ≤ 500 := by
  cases ds with
  | nil => exact absurd rfl h
  | cons d t =>
      simp only [runSignals]
      apply runSignals_length_of_le
      rw [load_prices_gen_step]
      exact takeLast_length_le _ _

/-- The persisted history is a chronological suffix of the initial history
followed by the appended synthetic prices. -/
theorem runSignals_suffix (ds : List (ℚ × ℚ)) :
    ∀ fs : FileState (List ℚ),
      List.IsSuffix (load_prices (runSignals fs ds))
        (load_prices fs ++ genPrices fs ds) := by
  induction ds with
  | nil =>
      intro fs
      simp only [runSignals, genPrices, List.append_nil]
      exact List.suffix_rfl
  | cons d t ih =>
      intro fs
      simp only [runSignals, genPrices]
      have h1 : List.IsSuffix (load_prices (generate_signal fs d.1 d.2).2)
          (load_prices fs ++ [(generate_signal fs d.1 d.2).1.price]) := by
        rw [load_prices_gen_step]
        exact takeLast_isSuffix _ _
      have h2 := ih ((generate_signal fs d.1 d.2).2)
      refine h2.trans ?_
      have h3 := isSuffix_append_same
        (genPrices (generate_signal fs d.1 d.2).2 t) h1
      simpa using h3

/-- C6: for every initial persisted history and every non-empty sequence of
`generate_signal` calls, the persisted history has at most 500 entries and
is the chronological suffix of the initial history followed by the
appended prices (only the oldest entries are evicted). -/
theorem C6_bounded_history (fs : FileState (List ℚ)) (ds : List (ℚ × ℚ))
    (h : ds ≠ []) :
    (load_prices (runSignals fs ds)).length ≤ 500 ∧
    List.IsSuffix (load_prices (runSignals fs ds))
      (load_prices fs ++ genPrices fs ds) :=
  ⟨runSignals_length ds fs h, runSignals_suffix ds fs⟩

/-- Witness for C6_bounded_history: one call from an empty history. -/
theorem C6_bounded_history_w :
    (load_prices (runSignals (FileState.stored ([] : List ℚ))
      [((1 : ℚ), (3 : ℚ)/4)])).length ≤ 500 ∧
    List.IsSuffix
      (load_prices (runSignals (FileState.stored ([] : List ℚ))
        [((1 : ℚ), (3 : ℚ)/4)]))
      (load_prices (FileState.stored ([] : List ℚ)) ++
        genPrices (FileState.stored ([] : List ℚ)) [((1 : ℚ), (3 : ℚ)/4)]) :=
  C6_bounded_history _ _ (by simp)

/-- C9: a failed storage read (missing or malformed file) is absorbed: the
subscriber load returns the empty set and the price load returns the empty
history; no error reaches the caller. -/
theorem C9_read_error_default (fsS : FileState (List ℤ))
    (fsP : FileState (List ℚ))
    (hS : readFile fsS = Except.error ())
    (hP : readFile fsP = Except.error ()) :
    load_subscribers fsS = [] ∧ load_prices fsP = [] := by
  constructor
  · unfold load_subscribers load_json_file
    rw [hS]
    rfl
  · unfold load_prices load_json_file
    rw [hP]

/-- Witness for C9_read_error_default: a missing subscriber file and a
malformed price file. -/
theorem C9_read_error_default_w :
    load_subscribers (FileState.absent : FileState (List ℤ)) = [] ∧
    load_prices (FileState.malformed : FileState (List ℚ)) = [] :=
  C9_read_error_default _ _ rfl rfl

/-- C10: every `get_price` call returns `round2 (base + δ)` with `base` the
last persisted price (2000 when the history is empty) and appends it
(truncated to 500); for draws in [-4, 4] consecutive prices differ by at
most 4.005 and the very first price lies in [1996, 2004]. -/
theorem C10_price_step (fs : FileState (List ℚ)) (δ : ℚ)
    (h1 : -4 ≤ δ) (h2 : δ ≤ 4) :
    (get_price fs δ).1 = round2 (baseOf (load_prices fs) + δ) ∧
    load_prices (get_price fs δ).2 =
      takeLast 500 (load_prices fs ++ [(get_price fs δ).1]) ∧
    |(get_price fs δ).1 - baseOf (load_prices fs)| ≤ (4.005 : ℚ) ∧
    (load_prices fs = [] →
      (1996 : ℚ) ≤ (get_price fs δ).1 ∧ (get_price fs δ).1 ≤ 2004) := by
  have e : (get_price fs δ).1 = round2 (baseOf (load_prices fs) + δ) := rfl
  refine ⟨rfl, rfl, ?_, ?_⟩
  · have h3 := abs_round2_sub (baseOf (load_prices fs) + δ)
    rw [abs_le] at h3
    rw [e, abs_le]
    constructor <;> linarith [h3.1, h3.2]
  · intro hnil
    have hb : baseOf (load_prices fs) = 2000 := by rw [hnil]; rfl
    rw [e, hb]
    constructor
    · have hle : ((199600 : ℤ) : ℚ)/100 ≤ 2000 + δ := by push_cast; linarith
      have hr := le_round2 hle
      have e2 : ((199600 : ℤ) : ℚ)/100 = (1996 : ℚ) := by norm_num
      rw [e2] at hr
      exact hr
    · have hle : 2000 + δ ≤ ((200400 : ℤ) : ℚ)/100 := by push_cast; linarith
      have hr := round2_le hle
      have e2 : ((200400 : ℤ) : ℚ)/100 = (2004 : ℚ) := by norm_num
      rw [e2] at hr
      exact hr

/-- Witness for C10_price_step: empty history and draw +2. -/
theorem C10_price_step_w :
    (get_price (FileState.stored ([] : List ℚ)) 2).1 =
      round2 (baseOf (load_prices (FileState.stored ([] : List ℚ))) + 2) ∧
    load_prices (get_price (FileState.stored ([] : List ℚ)) 2).2 =
      takeLast 500 (load_prices (FileState.stored ([] : List ℚ)) ++
        [(get_price (FileState.stored ([] : List ℚ)) 2).1]) ∧
    |(get_price (FileState.stored ([] : List ℚ)) 2).1 -
      baseOf (load_prices (FileState.stored ([] : List ℚ)))| ≤ (4.005 : ℚ) ∧
    (load_prices (FileState.stored ([] : List ℚ)) = [] →
      (1996 : ℚ) ≤ (get_price (FileState.stored ([] : List ℚ)) 2).1 ∧
      (get_price (FileState.stored ([] : List ℚ)) 2).1 ≤ 2004) :=
  C10_price_step _ _ (by norm_num) (by norm_num)

end GoldBot
